import Mathlib

set_option maxRecDepth 100000

/-!
# Shallow embedding of `python_trading_engine.py`

We translate the single-threaded Python trading engine into Lean:

* Python objects linked through `next` pointers become Lean `List`s.
* The simulated compare-and-swap helpers (`_compare_and_swap_head`,
  `_compare_and_swap_next`) always succeed on their first attempt in the
  single-threaded source, so each `while True` retry loop executes its body
  exactly once; the embedding performs the successful update directly.
* Python `int` is modelled as `Int` (quantities and prices may be any
  integer: the engine never validates them), order ids as `Nat`.
* The string constants `'Buy'` / `'Sell'` used for `order_type` become the
  two-constructor type `Side`; in the source any value other than `'Buy'`
  routes to the sell side, exactly as `Side.Sell` does here.
* The `print` in `match_orders` is the trade-emission channel; the embedding
  returns the list of emitted `Trade` records `(ticker, price, quantity)`,
  the fields interpolated by the print statement.
* A Python function without a `return` statement returns `None`; such
  return values are modelled as `(none : Option Int)`.
* An uncaught `IndexError` from list indexing is modelled by `Option`:
  `TradingEngine.add_order` yields `none` when `order_books[ticker_index-1]`
  is out of range under Python semantics (negative indices count from the
  end, see `pyIndex`).
* `match_orders` is a `while` loop that need not terminate when a resting
  order has non-positive quantity, so the loop is embedded with explicit
  fuel (`matchLoop`); `OrderBook.match_orders` supplies the fuel
  `buy.length + sell.length`, which is proved adequate whenever all resting
  quantities are positive (`matchLoop_fix`).
-/

/-- The two values of the `order_type` field (`'Buy'` / `'Sell'` in the source). -/
inductive Side where
  | Buy : Side
  | Sell : Side
deriving DecidableEq, Repr

/-- `class Order`: one order in the book.  The `next` pointer of the source
is represented by list structure rather than a field. -/
structure Order where
  order_type : Side
  ticker : String
  quantity : Int
  price : Int
  order_id : Nat
deriving DecidableEq, Repr

/-- One emitted trade record: the fields interpolated by the `print` call in
`OrderBook.match_orders` (`buy_order.ticker`, `trade_price`, `traded_quantity`). -/
structure Trade where
  ticker : String
  price : Int
  quantity : Int
deriving DecidableEq, Repr

namespace OrderList

/-- The inner walk of `OrderList.add_order`: `current` is the node the cursor
stands on, the list argument is everything after `current`.  The walk advances
`while current.next and ((Buy and current.next.price >= new.price) or
(Sell and current.next.price <= new.price))` and then links `new_order`
after `current`. -/
def addLoop (new_order : Order) (current : Order) : List Order → List Order
  | [] => [current, new_order]
  | next :: tail =>
    if (new_order.order_type = Side.Buy ∧ next.price ≥ new_order.price) ∨
       (new_order.order_type = Side.Sell ∧ next.price ≤ new_order.price) then
      current :: addLoop new_order next tail
    else
      current :: new_order :: next :: tail

/-- `OrderList.add_order`: insert `new_order` into the sorted linked list.
If the list is empty, or the new order beats the head (`Buy` with strictly
greater price / `Sell` with strictly smaller price), it becomes the new head;
otherwise the walk `addLoop` finds the insertion point. -/
def add_order (new_order : Order) (l : List Order) : List Order :=
  match l with
  | [] => [new_order]
  | current_head :: tail =>
    if (new_order.order_type = Side.Buy ∧ new_order.price > current_head.price) ∨
       (new_order.order_type = Side.Sell ∧ new_order.price < current_head.price) then
      new_order :: current_head :: tail
    else
      addLoop new_order current_head tail

/-- `OrderList.pop_head`: remove and return the first order; yields the
returned value and the list after removal. -/
def pop_head : List Order → Option Order × List Order
  | [] => (none, [])
  | current_head :: tail => (some current_head, tail)

end OrderList

/-- `class OrderBook`: one buy list and one sell list. -/
structure OrderBook where
  buy_orders : List Order
  sell_orders : List Order
deriving DecidableEq, Repr

namespace OrderBook

/-- One iteration of the `while` loop in `match_orders`: if both heads exist
and `buy.price >= sell.price`, trade `min` of the quantities at the sell
head's price, decrement both, pop each head whose quantity reaches `0`,
and return the emitted trade with the updated book; otherwise `none`
(the loop guard fails). -/
def matchStep (b : OrderBook) : Option (Trade × OrderBook) :=
  match b.buy_orders, b.sell_orders with
  | buy_order :: bt, sell_order :: st =>
    if buy_order.price ≥ sell_order.price then
      let traded_quantity := min buy_order.quantity sell_order.quantity
      let trade_price := sell_order.price
      let buy' : Order := { buy_order with quantity := buy_order.quantity - traded_quantity }
      let sell' : Order := { sell_order with quantity := sell_order.quantity - traded_quantity }
      some (⟨buy_order.ticker, trade_price, traded_quantity⟩,
            ⟨if buy'.quantity = 0 then bt else buy' :: bt,
             if sell'.quantity = 0 then st else sell' :: st⟩)
    else
      none
  | _, _ => none

/-- The matching `while` loop with explicit fuel; returns the final book and
the trades emitted, in emission order. -/
def matchLoop : Nat → OrderBook → OrderBook × List Trade
  | 0, b => (b, [])
  | n + 1, b =>
    match matchStep b with
    | none => (b, [])
    | some (t, b') =>
      let r := matchLoop n b'
      (r.1, t :: r.2)

/-- Total number of resting orders in the book (the loop's fuel). -/
def lenSum (b : OrderBook) : Nat :=
  b.buy_orders.length + b.sell_orders.length

/-- `OrderBook.match_orders`: run the matching loop to completion.  Fuel
`lenSum b` is adequate whenever all resting quantities are positive, since
every iteration then removes at least one fully filled order. -/
def match_orders (b : OrderBook) : OrderBook × List Trade :=
  matchLoop (lenSum b) b

/-- `OrderBook.add_order`: route the order to the list matching its side,
then run matching; returns the new book and the trades emitted. -/
def add_order (new_order : Order) (b : OrderBook) : OrderBook × List Trade :=
  let b' :=
    if new_order.order_type = Side.Buy then
      { b with buy_orders := OrderList.add_order new_order b.buy_orders }
    else
      { b with sell_orders := OrderList.add_order new_order b.sell_orders }
  match_orders b'

end OrderBook

/-- Python list-indexing semantics for a list of length `n`: a non-negative
index must be `< n`; a negative index `i` counts from the end as `n + i`;
anything else raises `IndexError` (`none`). -/
def pyIndex (n : Nat) (i : Int) : Option Nat :=
  if 0 ≤ i ∧ i < (n : Int) then some i.toNat
  else if -(n : Int) ≤ i ∧ i < 0 then some (i + n).toNat
  else none

/-- `class TradingEngine`: 1,024 order books and the atomic order-id counter
(the mutex-protected counter's integer value). -/
structure TradingEngine where
  order_books : List OrderBook
  order_id_counter : Nat
deriving DecidableEq, Repr

/-- Everything observable from one `TradingEngine.add_order` call: the new
engine state, the trades emitted (printed) during matching, and the value
returned to the caller (`none` models Python's implicit `return None`). -/
structure AddOrderResult where
  engine : TradingEngine
  trades : List Trade
  ret : Option Int
deriving DecidableEq, Repr

namespace TradingEngine

/-- `TradingEngine.__init__`: 1,024 empty books, counter at `0`. -/
def init : TradingEngine :=
  { order_books := List.replicate 1024 ⟨[], []⟩, order_id_counter := 0 }

/-- `TradingEngine.add_order`: build the `Order` (incrementing the id
counter), then `self.order_books[ticker_index - 1].add_order(order)`.
No validation is performed; an out-of-range index raises `IndexError`
(`none`), and `ticker_index = 0` reaches index `-1`, the last book. -/
def add_order (e : TradingEngine) (order_type : Side) (ticker_index quantity price : Int) :
    Option AddOrderResult :=
  let order_id := e.order_id_counter + 1
  let order : Order :=
    ⟨order_type, "STOCK" ++ toString ticker_index, quantity, price, order_id⟩
  match pyIndex e.order_books.length (ticker_index - 1) with
  | none => none
  | some i =>
    match e.order_books.get? i with
    | none => none
    | some book =>
      let r := OrderBook.add_order order book
      some { engine := { order_books := e.order_books.set i r.1,
                         order_id_counter := order_id },
             trades := r.2,
             ret := none }

/-- Driver used to state end-to-end scenarios: submit a list of
`(order_type, ticker_index, quantity, price)` requests in sequence,
collecting all emitted trades; an uncaught `IndexError` aborts the run. -/
def run (e : TradingEngine) : List (Side × Int × Int × Int) → Option (TradingEngine × List Trade)
  | [] => some (e, [])
  | (ot, ti, q, p) :: rest =>
    match e.add_order ot ti q p with
    | none => none
    | some r => (r.engine.run rest).map fun er => (er.1, r.trades ++ er.2)

end TradingEngine

/-! ## Predicates about the data model -/

/-- The buy-side sort invariant: prices are non-increasing from head to tail. -/
def buySorted (l : List Order) : Prop :=
  List.Chain' (fun a b => b.price ≤ a.price) l

/-- The sell-side sort invariant: prices are non-decreasing from head to tail. -/
def sellSorted (l : List Order) : Prop :=
  List.Chain' (fun a b => a.price ≤ b.price) l

/-- All resting orders in the list have positive remaining quantity (the
data-model contract `quantity : integer > 0`). -/
def posQty (l : List Order) : Prop :=
  ∀ o ∈ l, 0 < o.quantity

/-- A book whose resting quantities are all positive. -/
def OrderBook.ok (b : OrderBook) : Prop :=
  posQty b.buy_orders ∧ posQty b.sell_orders

instance (l : List Order) : Decidable (posQty l) :=
  inferInstanceAs (Decidable (∀ o ∈ l, 0 < o.quantity))

instance (b : OrderBook) : Decidable b.ok :=
  inferInstanceAs (Decidable (posQty b.buy_orders ∧ posQty b.sell_orders))

/-- The book is crossed: both heads exist and the buy head's price is at
least the sell head's price (exactly the guard of the `match_orders` loop). -/
def OrderBook.crossed (b : OrderBook) : Bool :=
  match b.buy_orders, b.sell_orders with
  | buy_order :: _, sell_order :: _ => buy_order.price ≥ sell_order.price
  | _, _ => false

/-- Total remaining quantity of a list of orders. -/
def qtySum (l : List Order) : Int :=
  (l.map Order.quantity).sum

/-- Total remaining quantity resting in both queues of a book. -/
def OrderBook.restingSum (b : OrderBook) : Int :=
  qtySum b.buy_orders + qtySum b.sell_orders

/-- Total quantity reported across a list of emitted trade records. -/
def tradeSum (ts : List Trade) : Int :=
  (ts.map Trade.quantity).sum

/-- States of one order list reachable from the empty list by any sequence of
`OrderList.add_order` calls with orders of side `s` and `OrderList.pop_head`
calls (the only operations the book performs on the list). -/
inductive ReachableList (s : Side) : List Order → Prop
  | init : ReachableList s []
  | add (o : Order) (l : List Order) :
      o.order_type = s → ReachableList s l → ReachableList s (OrderList.add_order o l)
  | pop (l : List Order) :
      ReachableList s l → ReachableList s (OrderList.pop_head l).2

/-- Book states, accumulated trade log, and total submitted quantity
reachable from an empty book by a sequence of `OrderBook.add_order` calls. -/
inductive BookTrace : OrderBook → List Trade → Int → Prop
  | init : BookTrace ⟨[], []⟩ [] 0
  | add (o : Order) (b : OrderBook) (tr : List Trade) (tot : Int) :
      BookTrace b tr tot →
      BookTrace (OrderBook.add_order o b).1 (tr ++ (OrderBook.add_order o b).2) (tot + o.quantity)

/-- Books reachable from `b` by zero or more successful matching steps. -/
inductive MatchReaches : OrderBook → OrderBook → Prop
  | refl (b : OrderBook) : MatchReaches b b
  | step (b : OrderBook) (t : Trade) (b' b'' : OrderBook) :
      OrderBook.matchStep b = some (t, b') → MatchReaches b' b'' → MatchReaches b b''

/-! ## Lemmas about `OrderList.add_order` -/

namespace OrderList

theorem addLoop_buy (o c : Order) (t : List Order) (ho : o.order_type = Side.Buy) :
    addLoop o c t =
      c :: (t.takeWhile (fun x => o.price ≤ x.price) ++
        o :: t.dropWhile (fun x => o.price ≤ x.price)) := by
  induction t generalizing c with
  | nil => simp [addLoop]
  | cons n tl ih =>
    by_cases h : o.price ≤ n.price
    · simp [addLoop, ho, h, ge_iff_le, ih]
    · simp [addLoop, ho, h, ge_iff_le]

theorem addLoop_sell (o c : Order) (t : List Order) (ho : o.order_type = Side.Sell) :
    addLoop o c t =
      c :: (t.takeWhile (fun x => x.price ≤ o.price) ++
        o :: t.dropWhile (fun x => x.price ≤ o.price)) := by
  induction t generalizing c with
  | nil => simp [addLoop]
  | cons n tl ih =>
    by_cases h : n.price ≤ o.price
    · simp [addLoop, ho, h, ih]
    · simp [addLoop, ho, h]

/-- Closed form of buy-side insertion: the new order lands after the longest
prefix of resting orders whose price is at least its own (hence after all
earlier orders of equal price: FIFO at a price level). -/
theorem add_order_buy (o : Order) (l : List Order) (ho : o.order_type = Side.Buy) :
    add_order o l =
      l.takeWhile (fun x => o.price ≤ x.price) ++
        o :: l.dropWhile (fun x => o.price ≤ x.price) := by
  cases l with
  | nil => simp [add_order]
  | cons h t =>
    by_cases hp : h.price < o.price
    · have h1 : ¬ (o.price ≤ h.price) := not_le.mpr hp
      simp [add_order, ho, hp, h1]
    · have h1 : o.price ≤ h.price := not_lt.mp hp
      simp [add_order, ho, not_lt.mp hp, h1, addLoop_buy o h t ho,
        List.takeWhile_cons_of_pos, gt_iff_lt, hp]

/-- Closed form of sell-side insertion: after the longest prefix of resting
orders whose price is at most its own. -/
theorem add_order_sell (o : Order) (l : List Order) (ho : o.order_type = Side.Sell) :
    add_order o l =
      l.takeWhile (fun x => x.price ≤ o.price) ++
        o :: l.dropWhile (fun x => x.price ≤ o.price) := by
  cases l with
  | nil => simp [add_order]
  | cons h t =>
    by_cases hp : o.price < h.price
    · have h1 : ¬ (h.price ≤ o.price) := not_le.mpr hp
      simp [add_order, ho, hp, h1]
    · have h1 : h.price ≤ o.price := not_lt.mp hp
      simp [add_order, ho, hp, h1, addLoop_sell o h t ho]

/-- Insertion neither loses nor invents orders. -/
theorem mem_add_order {x o : Order} {l : List Order} :
    x ∈ add_order o l ↔ x = o ∨ x ∈ l := by
  cases ho : o.order_type
  case Buy =>
    rw [add_order_buy o l ho]
    constructor
    · intro hx
      rcases List.mem_append.mp hx with h1 | h2
      · exact Or.inr (List.takeWhile_subset _ h1)
      · rcases List.mem_cons.mp h2 with rfl | h3
        · exact Or.inl rfl
        · exact Or.inr (List.dropWhile_subset _ h3)
    · intro hx
      rcases hx with rfl | hx
      · exact List.mem_append.mpr (Or.inr (List.mem_cons_self _ _))
      · conv at hx => rw [← List.takeWhile_append_dropWhile
          (p := fun y => decide (o.price ≤ y.price)) (l := l)]
        rcases List.mem_append.mp hx with h1 | h2
        · exact List.mem_append.mpr (Or.inl h1)
        · exact List.mem_append.mpr (Or.inr (List.mem_cons_of_mem _ h2))
  case Sell =>
    rw [add_order_sell o l ho]
    constructor
    · intro hx
      rcases List.mem_append.mp hx with h1 | h2
      · exact Or.inr (List.takeWhile_subset _ h1)
      · rcases List.mem_cons.mp h2 with rfl | h3
        · exact Or.inl rfl
        · exact Or.inr (List.dropWhile_subset _ h3)
    · intro hx
      rcases hx with rfl | hx
      · exact List.mem_append.mpr (Or.inr (List.mem_cons_self _ _))
      · conv at hx => rw [← List.takeWhile_append_dropWhile
          (p := fun y => decide (y.price ≤ o.price)) (l := l)]
        rcases List.mem_append.mp hx with h1 | h2
        · exact List.mem_append.mpr (Or.inl h1)
        · exact List.mem_append.mpr (Or.inr (List.mem_cons_of_mem _ h2))

/-- Insertion adds exactly the new order's quantity to the list's total. -/
theorem qtySum_add_order (o : Order) (l : List Order) :
    qtySum (add_order o l) = o.quantity + qtySum l := by
  have key : ∀ p : Order → Bool,
      qtySum (l.takeWhile p ++ o :: l.dropWhile p) = o.quantity + qtySum l := by
    intro p
    have h2 : qtySum (l.takeWhile p) + qtySum (l.dropWhile p) = qtySum l := by
      unfold qtySum
      rw [← List.sum_append, ← List.map_append, List.takeWhile_append_dropWhile]
    unfold qtySum at *
    simp only [List.map_append, List.sum_append, List.map_cons, List.sum_cons]
    omega
  cases ho : o.order_type
  case Buy =>
    rw [add_order_buy o l ho]
    exact key _
  case Sell =>
    rw [add_order_sell o l ho]
    exact key _

end OrderList

/-! ## Sort invariant (C1 machinery) -/

/-- Inserting an element between the `takeWhile` prefix and the `dropWhile`
suffix preserves a chain, provided what satisfies the predicate relates to
the new element and the new element relates to what fails it. -/
theorem chain'_takeWhile_insert {R : Order → Order → Prop} {p : Order → Bool}
    {o : Order} {l : List Order} (hc : List.Chain' R l)
    (h1 : ∀ x ∈ l, p x = true → R x o)
    (h2 : ∀ x ∈ l, p x = false → R o x) :
    List.Chain' R (l.takeWhile p ++ o :: l.dropWhile p) := by
  rw [List.chain'_append]
  have htw := List.Chain'.prefix hc (List.takeWhile_prefix p)
  refine ⟨htw, ?_, ?_⟩
  · rw [List.chain'_cons']
    refine ⟨?_, hc.suffix (List.dropWhile_suffix p)⟩
    intro y hy
    have hmem : y ∈ l.dropWhile p := List.mem_of_mem_head? hy
    have hp : p y = false := by
      have := List.head?_dropWhile_not p l
      rw [Option.mem_def.mp hy] at this
      exact this
    exact h2 y (List.dropWhile_subset _ hmem) hp
  · intro x hx y hy
    have hxl : x ∈ l.takeWhile p := List.mem_of_mem_getLast? hx
    have hpx : p x = true := List.mem_takeWhile_imp hxl
    have hyo : o = y := by simpa using hy
    subst hyo
    exact h1 x (List.takeWhile_subset _ hxl) hpx

/-- Buy-side insertion preserves the non-increasing price chain. -/
theorem buySorted_add_order {o : Order} {l : List Order}
    (ho : o.order_type = Side.Buy) (hs : buySorted l) :
    buySorted (OrderList.add_order o l) := by
  rw [OrderList.add_order_buy o l ho]
  refine chain'_takeWhile_insert hs ?_ ?_
  · intro x _ hpx
    exact of_decide_eq_true hpx
  · intro x _ hpx
    exact le_of_lt (not_le.mp (of_decide_eq_false hpx))

/-- Sell-side insertion preserves the non-decreasing price chain. -/
theorem sellSorted_add_order {o : Order} {l : List Order}
    (ho : o.order_type = Side.Sell) (hs : sellSorted l) :
    sellSorted (OrderList.add_order o l) := by
  rw [OrderList.add_order_sell o l ho]
  refine chain'_takeWhile_insert hs ?_ ?_
  · intro x _ hpx
    exact of_decide_eq_true hpx
  · intro x _ hpx
    exact le_of_lt (not_le.mp (of_decide_eq_false hpx))

/-- `pop_head` yields the tail of the list. -/
theorem pop_head_snd (l : List Order) : (OrderList.pop_head l).2 = l.tail := by
  cases l <;> rfl

theorem reachable_buySorted {l : List Order} (h : ReachableList Side.Buy l) :
    buySorted l := by
  induction h with
  | init => exact List.chain'_nil
  | add o l ho _ ih => exact buySorted_add_order ho ih
  | pop l _ ih => rw [pop_head_snd]; exact ih.tail

theorem reachable_sellSorted {l : List Order} (h : ReachableList Side.Sell l) :
    sellSorted l := by
  induction h with
  | init => exact List.chain'_nil
  | add o l ho _ ih => exact sellSorted_add_order ho ih
  | pop l _ ih => rw [pop_head_snd]; exact ih.tail

/-- In a non-increasing chain the head dominates every element. -/
theorem buySorted_head_best {l : List Order} (hs : buySorted l) :
    ∀ bh ∈ l.head?, ∀ x ∈ l, x.price ≤ bh.price := by
  intro bh hbh x hx
  cases l with
  | nil => simp at hbh
  | cons a t =>
    have ha : a = bh := by simpa using hbh
    rw [← ha]
    have hp : List.Pairwise (fun a b => b.price ≤ a.price) (a :: t) := by
      have : IsTrans Order (fun a b => b.price ≤ a.price) :=
        ⟨fun _ _ _ h1 h2 => le_trans h2 h1⟩
      exact List.chain'_iff_pairwise.mp hs
    rcases List.mem_cons.mp hx with rfl | hx
    · exact le_refl _
    · exact (List.pairwise_cons.mp hp).1 x hx

/-- In a non-decreasing chain the head is below every element. -/
theorem sellSorted_head_best {l : List Order} (hs : sellSorted l) :
    ∀ sh ∈ l.head?, ∀ x ∈ l, sh.price ≤ x.price := by
  intro sh hsh x hx
  cases l with
  | nil => simp at hsh
  | cons a t =>
    have ha : a = sh := by simpa using hsh
    rw [← ha]
    have hp : List.Pairwise (fun a b => a.price ≤ b.price) (a :: t) := by
      have : IsTrans Order (fun a b => a.price ≤ b.price) :=
        ⟨fun _ _ _ h1 h2 => le_trans h1 h2⟩
      exact List.chain'_iff_pairwise.mp hs
    rcases List.mem_cons.mp hx with rfl | hx
    · exact le_refl _
    · exact (List.pairwise_cons.mp hp).1 x hx


/-! ## Matching loop machinery -/

namespace OrderBook

/-- Inversion of a successful matching step. -/
theorem matchStep_eq_some {b : OrderBook} {t : Trade} {b' : OrderBook}
    (h : matchStep b = some (t, b')) :
    ∃ bh bt sh st, b.buy_orders = bh :: bt ∧ b.sell_orders = sh :: st ∧
      sh.price ≤ bh.price ∧
      t = ⟨bh.ticker, sh.price, min bh.quantity sh.quantity⟩ ∧
      b' = ⟨(if bh.quantity - min bh.quantity sh.quantity = 0 then bt
              else { bh with quantity := bh.quantity - min bh.quantity sh.quantity } :: bt),
            (if sh.quantity - min bh.quantity sh.quantity = 0 then st
              else { sh with quantity := sh.quantity - min bh.quantity sh.quantity } :: st)⟩ := by
  obtain ⟨bl, sl⟩ := b
  match bl, sl with
  | [], _ => simp [matchStep] at h
  | bh :: bt, [] => simp [matchStep] at h
  | bh :: bt, sh :: st =>
    simp only [matchStep, ge_iff_le] at h
    split at h
    · obtain ⟨h1, h2⟩ := Prod.ext_iff.mp (Option.some.inj h)
      exact ⟨bh, bt, sh, st, rfl, rfl, by assumption, h1.symm, h2.symm⟩
    · exact absurd h (by simp)

/-- A failed guard is exactly an uncrossed book. -/
theorem matchStep_eq_none_iff {b : OrderBook} :
    matchStep b = none ↔ b.crossed = false := by
  obtain ⟨bl, sl⟩ := b
  match bl, sl with
  | [], _ => simp [matchStep, crossed]
  | bh :: bt, [] => simp [matchStep, crossed]
  | bh :: bt, sh :: st =>
    by_cases hp : sh.price ≤ bh.price
    · simp [matchStep, crossed, hp]
    · simp [matchStep, crossed, hp]

/-- A matching step on a positive-quantity book keeps quantities positive. -/
theorem matchStep_ok {b : OrderBook} {t : Trade} {b' : OrderBook}
    (h : matchStep b = some (t, b')) (hb : b.ok) : b'.ok := by
  obtain ⟨bh, bt, sh, st, hbuy, hsell, _, _, hb'⟩ := matchStep_eq_some h
  obtain ⟨hbq, hsq⟩ := hb
  rw [hbuy] at hbq
  rw [hsell] at hsq
  subst hb'
  have hminb : min bh.quantity sh.quantity ≤ bh.quantity := min_le_left _ _
  have hmins : min bh.quantity sh.quantity ≤ sh.quantity := min_le_right _ _
  constructor
  · intro o ho
    by_cases hz : bh.quantity - min bh.quantity sh.quantity = 0
    · rw [if_pos hz] at ho
      exact hbq o (List.mem_cons_of_mem _ ho)
    · rw [if_neg hz] at ho
      rcases List.mem_cons.mp ho with rfl | ho
      · show (0 : Int) < bh.quantity - min bh.quantity sh.quantity
        omega
      · exact hbq o (List.mem_cons_of_mem _ ho)
  · intro o ho
    by_cases hz : sh.quantity - min bh.quantity sh.quantity = 0
    · rw [if_pos hz] at ho
      exact hsq o (List.mem_cons_of_mem _ ho)
    · rw [if_neg hz] at ho
      rcases List.mem_cons.mp ho with rfl | ho
      · show (0 : Int) < sh.quantity - min bh.quantity sh.quantity
        omega
      · exact hsq o (List.mem_cons_of_mem _ ho)

/-- On a positive-quantity book, every successful matching step fully fills
at least one head and removes it: the number of resting orders drops. -/
theorem matchStep_lenSum {b : OrderBook} {t : Trade} {b' : OrderBook}
    (h : matchStep b = some (t, b')) (hb : b.ok) : lenSum b' < lenSum b := by
  obtain ⟨bh, bt, sh, st, hbuy, hsell, _, _, hb'⟩ := matchStep_eq_some h
  obtain ⟨hbq, hsq⟩ := hb
  have hbh : 0 < bh.quantity := hbq bh (hbuy ▸ List.mem_cons_self _ _)
  have hsh : 0 < sh.quantity := hsq sh (hsell ▸ List.mem_cons_self _ _)
  have hzero : bh.quantity - min bh.quantity sh.quantity = 0 ∨
      sh.quantity - min bh.quantity sh.quantity = 0 := by omega
  subst hb'
  rw [lenSum, lenSum, hbuy, hsell]
  by_cases hz1 : bh.quantity - min bh.quantity sh.quantity = 0 <;>
    by_cases hz2 : sh.quantity - min bh.quantity sh.quantity = 0 <;>
      simp only [if_pos, if_neg, hz1, hz2, if_true, if_false, List.length_cons] <;>
        omega

/-- One unfolding of the fuelled loop on a successful step. -/
theorem matchLoop_succ_of_step {n : Nat} {b : OrderBook} {t : Trade} {b' : OrderBook}
    (h : matchStep b = some (t, b')) :
    matchLoop (n + 1) b = ((matchLoop n b').1, t :: (matchLoop n b').2) := by
  rw [matchLoop, h]

/-- One unfolding of the fuelled loop on a failed guard. -/
theorem matchLoop_of_none {n : Nat} {b : OrderBook}
    (h : matchStep b = none) :
    matchLoop n b = (b, []) := by
  cases n with
  | zero => rfl
  | succ n => rw [matchLoop, h]

/-- With fuel at least the number of resting orders, the loop on a
positive-quantity book runs to a true fixpoint: the final book fails the
guard, and its quantities remain positive. -/
theorem matchLoop_fix {n : Nat} {b : OrderBook} (hb : b.ok) (hn : lenSum b ≤ n) :
    matchStep (matchLoop n b).1 = none ∧ (matchLoop n b).1.ok := by
  induction n generalizing b with
  | zero =>
    have h0 : lenSum b = 0 := Nat.le_zero.mp hn
    have hbz : b.buy_orders = [] := by
      rw [lenSum] at h0
      exact List.length_eq_zero.mp (by omega)
    rw [matchLoop]
    refine ⟨?_, hb⟩
    rw [matchStep_eq_none_iff, crossed, hbz]
  | succ n ih =>
    cases hstep : matchStep b with
    | none =>
      rw [matchLoop_of_none hstep]
      exact ⟨hstep, hb⟩
    | some tb =>
      obtain ⟨t, b'⟩ := tb
      rw [matchLoop_succ_of_step hstep]
      have hok' : b'.ok := matchStep_ok hstep hb
      have hlen : lenSum b' < lenSum b := matchStep_lenSum hstep hb
      exact ih hok' (by omega)

/-- The loop's value does not depend on the fuel, once the fuel is adequate. -/
theorem matchLoop_congr {b : OrderBook} (hb : b.ok) :
    ∀ {n m : Nat}, lenSum b ≤ n → lenSum b ≤ m → matchLoop n b = matchLoop m b := by
  have main : ∀ (k : Nat) (b : OrderBook), b.ok → ∀ (n m : Nat),
      lenSum b ≤ k → lenSum b ≤ n → lenSum b ≤ m → matchLoop n b = matchLoop m b := by
    intro k
    induction k with
    | zero =>
      intro b _ n m hk _ _
      have h0 : lenSum b = 0 := Nat.le_zero.mp hk
      have hbz : b.buy_orders = [] := by
        rw [lenSum] at h0
        exact List.length_eq_zero.mp (by omega)
      have hnone : matchStep b = none := by
        rw [matchStep_eq_none_iff, crossed, hbz]
      rw [matchLoop_of_none hnone, matchLoop_of_none hnone]
    | succ k ih =>
      intro b hb n m hk hn hm
      cases hstep : matchStep b with
      | none => rw [matchLoop_of_none hstep, matchLoop_of_none hstep]
      | some tb =>
        obtain ⟨t, b'⟩ := tb
        have hok' : b'.ok := matchStep_ok hstep hb
        have hlen : lenSum b' < lenSum b := matchStep_lenSum hstep hb
        obtain ⟨n', rfl⟩ : ∃ n', n = n' + 1 := by
          cases n with
          | zero =>
            have h0 : lenSum b = 0 := Nat.le_zero.mp hn
            have hbz : b.buy_orders = [] := by
              rw [lenSum] at h0
              exact List.length_eq_zero.mp (by omega)
            have hnone : matchStep b = none := by
              rw [matchStep_eq_none_iff, crossed, hbz]
            exact Option.noConfusion (hnone ▸ hstep)
          | succ n' => exact ⟨n', rfl⟩
        obtain ⟨m', rfl⟩ : ∃ m', m = m' + 1 := by
          cases m with
          | zero =>
            have h0 : lenSum b = 0 := Nat.le_zero.mp hm
            have hbz : b.buy_orders = [] := by
              rw [lenSum] at h0
              exact List.length_eq_zero.mp (by omega)
            have hnone : matchStep b = none := by
              rw [matchStep_eq_none_iff, crossed, hbz]
            exact Option.noConfusion (hnone ▸ hstep)
          | succ m' => exact ⟨m', rfl⟩
        rw [matchLoop_succ_of_step hstep, matchLoop_succ_of_step hstep,
          ih b' hok' n' m' (by omega) (by omega) (by omega)]
  intro n m hn hm
  exact main (lenSum b) b hb n m le_rfl hn hm

end OrderBook

/-! ## Conservation machinery -/

/-- Inserting a positive-quantity order keeps all quantities positive. -/
theorem posQty_add_order {o : Order} {l : List Order}
    (hl : posQty l) (ho : 0 < o.quantity) :
    posQty (OrderList.add_order o l) := by
  intro x hx
  rcases OrderList.mem_add_order.mp hx with rfl | hx
  · exact ho
  · exact hl x hx

namespace OrderBook

/-- A matching step removes the traded quantity from both sides at once. -/
theorem matchStep_restingSum {b : OrderBook} {t : Trade} {b' : OrderBook}
    (h : matchStep b = some (t, b')) :
    restingSum b' + 2 * t.quantity = restingSum b := by
  obtain ⟨bh, bt, sh, st, hbuy, hsell, _, ht, hb'⟩ := matchStep_eq_some h
  subst hb'
  subst ht
  rw [restingSum, restingSum, hbuy, hsell]
  have hqb : qtySum (if bh.quantity - min bh.quantity sh.quantity = 0 then bt
      else { bh with quantity := bh.quantity - min bh.quantity sh.quantity } :: bt) =
      bh.quantity - min bh.quantity sh.quantity + qtySum bt := by
    by_cases hz : bh.quantity - min bh.quantity sh.quantity = 0
    · rw [if_pos hz, hz]
      omega
    · rw [if_neg hz, qtySum, List.map_cons, List.sum_cons]
      rfl
  have hqs : qtySum (if sh.quantity - min bh.quantity sh.quantity = 0 then st
      else { sh with quantity := sh.quantity - min bh.quantity sh.quantity } :: st) =
      sh.quantity - min bh.quantity sh.quantity + qtySum st := by
    by_cases hz : sh.quantity - min bh.quantity sh.quantity = 0
    · rw [if_pos hz, hz]
      omega
    · rw [if_neg hz, qtySum, List.map_cons, List.sum_cons]
      rfl
  rw [hqb, hqs]
  simp only [qtySum, List.map_cons, List.sum_cons]
  omega

/-- The fuelled loop conserves quantity: what leaves the book is exactly
twice what the trade records report (once from each side). -/
theorem matchLoop_restingSum (n : Nat) (b : OrderBook) :
    restingSum (matchLoop n b).1 + 2 * tradeSum (matchLoop n b).2 = restingSum b := by
  induction n generalizing b with
  | zero =>
    rw [matchLoop]
    simp [tradeSum]
  | succ n ih =>
    cases hstep : matchStep b with
    | none =>
      rw [matchLoop_of_none hstep]
      simp [tradeSum]
    | some tb =>
      obtain ⟨t, b'⟩ := tb
      rw [matchLoop_succ_of_step hstep]
      have h1 := matchStep_restingSum hstep
      have h2 := ih b'
      show restingSum (matchLoop n b').1 + 2 * tradeSum (t :: (matchLoop n b').2) = restingSum b
      rw [tradeSum, List.map_cons, List.sum_cons]
      rw [tradeSum] at h2
      omega

/-- `match_orders` conserves quantity. -/
theorem match_orders_restingSum (b : OrderBook) :
    restingSum (match_orders b).1 + 2 * tradeSum (match_orders b).2 = restingSum b := by
  rw [match_orders]
  exact matchLoop_restingSum _ _

/-- The book obtained by routing the new order to its side's list, before
matching runs (the intermediate state inside `OrderBook.add_order`). -/
def insertOrder (new_order : Order) (b : OrderBook) : OrderBook :=
  if new_order.order_type = Side.Buy then
    { b with buy_orders := OrderList.add_order new_order b.buy_orders }
  else
    { b with sell_orders := OrderList.add_order new_order b.sell_orders }

theorem add_order_eq_match_insert (new_order : Order) (b : OrderBook) :
    add_order new_order b = match_orders (insertOrder new_order b) := by
  rw [add_order, insertOrder]

theorem insertOrder_restingSum (o : Order) (b : OrderBook) :
    restingSum (insertOrder o b) = restingSum b + o.quantity := by
  rw [insertOrder]
  by_cases ho : o.order_type = Side.Buy
  · rw [if_pos ho, restingSum, restingSum]
    show qtySum (OrderList.add_order o b.buy_orders) + qtySum b.sell_orders = _
    rw [OrderList.qtySum_add_order]
    omega
  · rw [if_neg ho, restingSum, restingSum]
    show qtySum b.buy_orders + qtySum (OrderList.add_order o b.sell_orders) = _
    rw [OrderList.qtySum_add_order]
    omega

theorem insertOrder_ok {o : Order} {b : OrderBook}
    (hb : b.ok) (ho : 0 < o.quantity) : (insertOrder o b).ok := by
  rw [insertOrder]
  by_cases hside : o.order_type = Side.Buy
  · rw [if_pos hside]
    exact ⟨posQty_add_order hb.1 ho, hb.2⟩
  · rw [if_neg hside]
    exact ⟨hb.1, posQty_add_order hb.2 ho⟩

/-- Full conservation for one `add_order` call: the submitted quantity enters
the book, and matching drains twice the reported traded quantity. -/
theorem add_order_restingSum (o : Order) (b : OrderBook) :
    restingSum (add_order o b).1 + 2 * tradeSum (add_order o b).2 =
      restingSum b + o.quantity := by
  rw [add_order_eq_match_insert, ← insertOrder_restingSum o b]
  exact match_orders_restingSum _

end OrderBook

namespace OrderBook

/-- The guard fails exactly when a head is missing or the buy head prices
strictly below the sell head. -/
theorem matchStep_none_cases {b : OrderBook}
    (h : b.buy_orders = [] ∨ b.sell_orders = [] ∨
      ∃ bh bt sh st, b.buy_orders = bh :: bt ∧ b.sell_orders = sh :: st ∧
        bh.price < sh.price) :
    matchStep b = none := by
  obtain ⟨bl, sl⟩ := b
  dsimp only at h
  rcases h with h | h | ⟨bh, bt, sh, st, h1, h2, h3⟩
  · subst h
    rfl
  · subst h
    cases bl <;> rfl
  · subst h1
    subst h2
    simp [matchStep, not_le.mpr h3]

/-- The guard holds exactly when both heads exist and the buy head prices at
least the sell head; the step then trades the minimum quantity at the sell
head's price, decrements both heads, and pops the fully filled ones. -/
theorem matchStep_some_cases {b : OrderBook} {bh sh : Order} {bt st : List Order}
    (h1 : b.buy_orders = bh :: bt) (h2 : b.sell_orders = sh :: st)
    (h3 : sh.price ≤ bh.price) :
    matchStep b = some (⟨bh.ticker, sh.price, min bh.quantity sh.quantity⟩,
      ⟨(if bh.quantity - min bh.quantity sh.quantity = 0 then bt
          else { bh with quantity := bh.quantity - min bh.quantity sh.quantity } :: bt),
        (if sh.quantity - min bh.quantity sh.quantity = 0 then st
          else { sh with quantity := sh.quantity - min bh.quantity sh.quantity } :: st)⟩) := by
  obtain ⟨bl, sl⟩ := b
  dsimp only at h1 h2
  subst h1
  subst h2
  simp [matchStep, h3]

end OrderBook

/-- Every trade emitted by the fuelled matching loop is emitted by a
matching step on a book reached by earlier steps, and carries the sell
head's price at that moment. -/
theorem matchLoop_trade_origin (n : Nat) (b : OrderBook) (t : Trade)
    (ht : t ∈ (OrderBook.matchLoop n b).2) :
    ∃ b₀ b₁ sh st, MatchReaches b b₀ ∧ b₀.sell_orders = sh :: st ∧
      OrderBook.matchStep b₀ = some (t, b₁) ∧ t.price = sh.price := by
  induction n generalizing b with
  | zero =>
    rw [OrderBook.matchLoop] at ht
    simp at ht
  | succ n ih =>
    cases hstep : OrderBook.matchStep b with
    | none =>
      rw [OrderBook.matchLoop_of_none hstep] at ht
      simp at ht
    | some tb =>
      obtain ⟨t₀, b'⟩ := tb
      rw [OrderBook.matchLoop_succ_of_step hstep] at ht
      have ht' : t ∈ t₀ :: (OrderBook.matchLoop n b').2 := ht
      rcases List.mem_cons.mp ht' with rfl | hmem
      · obtain ⟨bh, bt, sh, st, hbuy, hsell, hp, hteq, hb'⟩ :=
          OrderBook.matchStep_eq_some hstep
        refine ⟨b, b', sh, st, MatchReaches.refl b, hsell, hstep, ?_⟩
        rw [hteq]
      · obtain ⟨b₀, b₁, sh, st, hr, hsell, hstep₀, hpr⟩ := ih b' hmem
        exact ⟨b₀, b₁, sh, st, MatchReaches.step b t₀ b' b₀ hstep hr, hsell, hstep₀, hpr⟩

/-! ## Claim theorems -/

/-- **C1** (sort invariant): in every state reachable by any sequence of
`OrderList.add_order` calls (with orders of the queue's side) and `pop_head`
calls, the Buy queue's prices are non-increasing from head to tail and the
Sell queue's prices are non-decreasing, so the head (when present) is the
best-priced order on its side. -/
theorem sort_invariant_reachable (l : List Order) :
    (ReachableList Side.Buy l →
      buySorted l ∧ ∀ bh ∈ l.head?, ∀ x ∈ l, x.price ≤ bh.price) ∧
    (ReachableList Side.Sell l →
      sellSorted l ∧ ∀ sh ∈ l.head?, ∀ x ∈ l, sh.price ≤ x.price) := by
  constructor
  · intro h
    have hs := reachable_buySorted h
    exact ⟨hs, buySorted_head_best hs⟩
  · intro h
    have hs := reachable_sellSorted h
    exact ⟨hs, sellSorted_head_best hs⟩

/-- Witness for `sort_invariant_reachable` on a concrete two-insert,
one-pop reachable buy queue. -/
theorem sort_invariant_reachable_witness :
    buySorted (OrderList.pop_head
      (OrderList.add_order ⟨Side.Buy, "STOCK1", 5, 100, 2⟩
        (OrderList.add_order ⟨Side.Buy, "STOCK1", 7, 120, 1⟩ []))).2 :=
  ((sort_invariant_reachable _).1
    (ReachableList.pop _
      (ReachableList.add ⟨Side.Buy, "STOCK1", 5, 100, 2⟩ _ rfl
        (ReachableList.add ⟨Side.Buy, "STOCK1", 7, 120, 1⟩ [] rfl
          ReachableList.init)))).1

/-- **C2** counterexample: with a resting Buy at price 100, an incoming
(aggressing) Sell at price 90 trades at 90 — the aggressor's own price —
not at the resting order's price 100, so trades do not always execute at
the resting (non-aggressing) order's price. -/
theorem trade_price_resting_cx :
    (OrderBook.add_order ⟨Side.Buy, "STOCK1", 10, 100, 1⟩ ⟨[], []⟩).1 =
      ⟨[⟨Side.Buy, "STOCK1", 10, 100, 1⟩], []⟩ ∧
    (OrderBook.add_order ⟨Side.Sell, "STOCK1", 10, 90, 2⟩
        ⟨[⟨Side.Buy, "STOCK1", 10, 100, 1⟩], []⟩).2 = [⟨"STOCK1", 90, 10⟩] ∧
    (90 : Int) ≠ 100 := by
  decide

/-- **C2** amended: every trade emitted by `OrderBook.match_orders` executes
at the price of the sell-side head at the moment of match (the resting
order's price when the aggressor is a Buy, but the aggressor's own price
when the aggressor is a Sell). -/
theorem trade_price_sell_head (b : OrderBook) (t : Trade)
    (ht : t ∈ (OrderBook.match_orders b).2) :
    ∃ b₀ b₁ sh st, MatchReaches b b₀ ∧ b₀.sell_orders = sh :: st ∧
      OrderBook.matchStep b₀ = some (t, b₁) ∧ t.price = sh.price := by
  rw [OrderBook.match_orders] at ht
  exact matchLoop_trade_origin _ b t ht

/-- Witness for `trade_price_sell_head` on a concrete crossed book. -/
theorem trade_price_sell_head_witness :
    ∃ b₀ b₁ sh st,
      MatchReaches ⟨[⟨Side.Buy, "STOCK1", 10, 100, 1⟩],
        [⟨Side.Sell, "STOCK1", 10, 90, 2⟩]⟩ b₀ ∧
      b₀.sell_orders = sh :: st ∧
      OrderBook.matchStep b₀ = some (⟨"STOCK1", 90, 10⟩, b₁) ∧
      (⟨"STOCK1", 90, 10⟩ : Trade).price = sh.price :=
  trade_price_sell_head
    ⟨[⟨Side.Buy, "STOCK1", 10, 100, 1⟩], [⟨Side.Sell, "STOCK1", 10, 90, 2⟩]⟩
    ⟨"STOCK1", 90, 10⟩ (by decide)

/-- **C3** (code bug): `TradingEngine.add_order` performs no validation at
all.  A call with non-positive quantity (here `-5`) is not rejected: it
succeeds, mutates book 0 by inserting the invalid order, and reports no
error to the caller. -/
theorem add_order_no_validation :
    (TradingEngine.init.add_order Side.Buy 1 (-5) 100).map
        (fun r => (r.engine.order_books.get? 0, r.ret)) =
      some (some ⟨[⟨Side.Buy, "STOCK1", -5, 100, 1⟩], []⟩, none) := by
  decide

/-- **C4** (no self-cross persists): after `OrderBook.add_order` returns
(on a book whose resting quantities are positive, with a positive-quantity
order), it is not the case that both queues are non-empty with the Buy
head's price at least the Sell head's price: matching ran to fixpoint. -/
theorem no_self_cross_after_add (o : Order) (b : OrderBook)
    (hb : b.ok) (ho : 0 < o.quantity) :
    (OrderBook.add_order o b).1.crossed = false := by
  rw [OrderBook.add_order_eq_match_insert, OrderBook.match_orders]
  exact OrderBook.matchStep_eq_none_iff.mp
    (OrderBook.matchLoop_fix (OrderBook.insertOrder_ok hb ho) le_rfl).1

/-- Witness for `no_self_cross_after_add`: a crossing Sell hits a resting
Buy and the cross is fully drained before the call returns. -/
theorem no_self_cross_after_add_witness :
    (OrderBook.add_order ⟨Side.Sell, "STOCK1", 4, 90, 2⟩
      ⟨[⟨Side.Buy, "STOCK1", 10, 100, 1⟩], []⟩).1.crossed = false :=
  no_self_cross_after_add ⟨Side.Sell, "STOCK1", 4, 90, 2⟩
    ⟨[⟨Side.Buy, "STOCK1", 10, 100, 1⟩], []⟩ (by decide) (by decide)

/-- **C5** counterexample: submitting Buy(10 @ 100) then Sell(10 @ 90)
leaves both queues empty and one trade record of quantity 10, so resting
quantity plus reported traded quantity is 10, not the submitted total 20:
each trade removes its quantity from *both* sides but is reported once. -/
theorem conservation_cx :
    BookTrace ⟨[], []⟩ [⟨"STOCK1", 90, 10⟩] 20 ∧
    OrderBook.restingSum ⟨[], []⟩ + tradeSum [⟨"STOCK1", 90, 10⟩] ≠ 20 := by
  constructor
  · exact BookTrace.add ⟨Side.Sell, "STOCK1", 10, 90, 2⟩ _ _ _
      (BookTrace.add ⟨Side.Buy, "STOCK1", 10, 100, 1⟩ _ _ _ BookTrace.init)
  · decide

/-- **C5** amended: for every reachable book state, the total remaining
quantity in both queues plus *twice* the total quantity reported in emitted
trade records equals the total quantity ever submitted (each trade consumes
its quantity from a buy order and from a sell order). -/
theorem conservation_with_double_count (b : OrderBook) (tr : List Trade)
    (tot : Int) (h : BookTrace b tr tot) :
    OrderBook.restingSum b + 2 * tradeSum tr = tot := by
  induction h with
  | init => decide
  | add o b tr tot _ ih =>
    have h1 := OrderBook.add_order_restingSum o b
    rw [tradeSum, List.map_append, List.sum_append]
    rw [tradeSum] at ih
    rw [tradeSum] at h1
    omega

/-- Witness for `conservation_with_double_count` on the Buy(10 @ 100),
Sell(10 @ 90) trace: 0 resting + 2·10 traded = 20 submitted. -/
theorem conservation_with_double_count_witness :
    OrderBook.restingSum ⟨[], []⟩ + 2 * tradeSum [⟨"STOCK1", 90, 10⟩] = 20 :=
  conservation_with_double_count _ _ _
    (BookTrace.add ⟨Side.Sell, "STOCK1", 10, 90, 2⟩ _ _ _
      (BookTrace.add ⟨Side.Buy, "STOCK1", 10, 100, 1⟩ _ _ _ BookTrace.init))

/-- **C6** (matching algorithm steps): `match_orders` stops when a head is
absent or the Buy head prices strictly below the Sell head; otherwise it
trades `min` of the head quantities at the sell head's price, emits that one
trade record, decrements both heads, pops each head whose quantity reaches
0, and recurses on the resulting book until no cross remains. -/
theorem matching_algorithm_steps :
    (∀ b : OrderBook,
      (b.buy_orders = [] ∨ b.sell_orders = [] ∨
        ∃ bh bt sh st, b.buy_orders = bh :: bt ∧ b.sell_orders = sh :: st ∧
          bh.price < sh.price) →
      OrderBook.match_orders b = (b, [])) ∧
    (∀ (b : OrderBook) (bh : Order) (bt : List Order) (sh : Order)
        (st : List Order), b.ok →
      b.buy_orders = bh :: bt → b.sell_orders = sh :: st → sh.price ≤ bh.price →
      ∃ b' : OrderBook,
        OrderBook.matchStep b =
          some (⟨bh.ticker, sh.price, min bh.quantity sh.quantity⟩, b') ∧
        b'.buy_orders = (if bh.quantity - min bh.quantity sh.quantity = 0 then bt
          else { bh with quantity := bh.quantity - min bh.quantity sh.quantity } :: bt) ∧
        b'.sell_orders = (if sh.quantity - min bh.quantity sh.quantity = 0 then st
          else { sh with quantity := sh.quantity - min bh.quantity sh.quantity } :: st) ∧
        OrderBook.match_orders b =
          ((OrderBook.match_orders b').1,
            (⟨bh.ticker, sh.price, min bh.quantity sh.quantity⟩ : Trade) ::
              (OrderBook.match_orders b').2)) := by
  constructor
  · intro b h
    rw [OrderBook.match_orders, OrderBook.matchLoop_of_none
      (OrderBook.matchStep_none_cases h)]
  · intro b bh bt sh st hok hbuy hsell hp
    have hstep := OrderBook.matchStep_some_cases hbuy hsell hp
    refine ⟨_, hstep, rfl, rfl, ?_⟩
    have hok' := OrderBook.matchStep_ok hstep hok
    have hlen := OrderBook.matchStep_lenSum hstep hok
    obtain ⟨k, hk⟩ : ∃ k, OrderBook.lenSum b = k + 1 := by
      refine ⟨bt.length + st.length + 1, ?_⟩
      rw [OrderBook.lenSum, hbuy, hsell]
      simp [List.length_cons]
      omega
    rw [OrderBook.match_orders, hk, OrderBook.matchLoop_succ_of_step hstep]
    have hcong := OrderBook.matchLoop_congr hok'
      (n := k) (m := OrderBook.lenSum _) (by omega) le_rfl
    rw [hcong, OrderBook.match_orders]

/-- Witness for `matching_algorithm_steps` on a concrete crossed book. -/
theorem matching_algorithm_steps_witness :
    ∃ b' : OrderBook,
      OrderBook.matchStep
          ⟨[⟨Side.Buy, "STOCK1", 10, 100, 1⟩], [⟨Side.Sell, "STOCK1", 4, 90, 2⟩]⟩ =
        some (⟨"STOCK1", 90,
          min (⟨Side.Buy, "STOCK1", 10, 100, 1⟩ : Order).quantity
            (⟨Side.Sell, "STOCK1", 4, 90, 2⟩ : Order).quantity⟩, b') ∧
      b'.buy_orders = (if (⟨Side.Buy, "STOCK1", 10, 100, 1⟩ : Order).quantity -
          min (⟨Side.Buy, "STOCK1", 10, 100, 1⟩ : Order).quantity
            (⟨Side.Sell, "STOCK1", 4, 90, 2⟩ : Order).quantity = 0 then []
        else { (⟨Side.Buy, "STOCK1", 10, 100, 1⟩ : Order) with
          quantity := (⟨Side.Buy, "STOCK1", 10, 100, 1⟩ : Order).quantity -
            min (⟨Side.Buy, "STOCK1", 10, 100, 1⟩ : Order).quantity
              (⟨Side.Sell, "STOCK1", 4, 90, 2⟩ : Order).quantity } :: []) ∧
      b'.sell_orders = (if (⟨Side.Sell, "STOCK1", 4, 90, 2⟩ : Order).quantity -
          min (⟨Side.Buy, "STOCK1", 10, 100, 1⟩ : Order).quantity
            (⟨Side.Sell, "STOCK1", 4, 90, 2⟩ : Order).quantity = 0 then []
        else { (⟨Side.Sell, "STOCK1", 4, 90, 2⟩ : Order) with
          quantity := (⟨Side.Sell, "STOCK1", 4, 90, 2⟩ : Order).quantity -
            min (⟨Side.Buy, "STOCK1", 10, 100, 1⟩ : Order).quantity
              (⟨Side.Sell, "STOCK1", 4, 90, 2⟩ : Order).quantity } :: []) ∧
      OrderBook.match_orders
          ⟨[⟨Side.Buy, "STOCK1", 10, 100, 1⟩], [⟨Side.Sell, "STOCK1", 4, 90, 2⟩]⟩ =
        ((OrderBook.match_orders b').1,
          (⟨"STOCK1", 90,
            min (⟨Side.Buy, "STOCK1", 10, 100, 1⟩ : Order).quantity
              (⟨Side.Sell, "STOCK1", 4, 90, 2⟩ : Order).quantity⟩ : Trade) ::
            (OrderBook.match_orders b').2) :=
  matching_algorithm_steps.2
    ⟨[⟨Side.Buy, "STOCK1", 10, 100, 1⟩], [⟨Side.Sell, "STOCK1", 4, 90, 2⟩]⟩
    ⟨Side.Buy, "STOCK1", 10, 100, 1⟩ [] ⟨Side.Sell, "STOCK1", 4, 90, 2⟩ []
    (by decide) rfl rfl (by decide)

/-- **C7** (FIFO tie-break): `OrderList.add_order` inserts the new order
directly after the longest head prefix of orders priced at least as
aggressively (so after all existing orders of equal price); consequently
Buy(5 @ 100), Buy(5 @ 100), Sell(7 @ 100) on one instrument yields trades
of quantity 5 then 2 (total 7) at price 100, the first buy filling
completely before the second, which rests with quantity 3. -/
theorem fifo_tie_break :
    (∀ (o : Order) (l : List Order), o.order_type = Side.Buy →
      OrderList.add_order o l =
        l.takeWhile (fun x => o.price ≤ x.price) ++
          o :: l.dropWhile (fun x => o.price ≤ x.price)) ∧
    (∀ (o : Order) (l : List Order), o.order_type = Side.Sell →
      OrderList.add_order o l =
        l.takeWhile (fun x => x.price ≤ o.price) ++
          o :: l.dropWhile (fun x => x.price ≤ o.price)) ∧
    (TradingEngine.init.run
        [(Side.Buy, 1, 5, 100), (Side.Buy, 1, 5, 100), (Side.Sell, 1, 7, 100)]).map
        (fun er => (er.2, er.1.order_books.get? 0)) =
      some ([⟨"STOCK1", 100, 5⟩, ⟨"STOCK1", 100, 2⟩],
        some ⟨[⟨Side.Buy, "STOCK1", 3, 100, 2⟩], []⟩) := by
  exact ⟨OrderList.add_order_buy, OrderList.add_order_sell, by decide⟩

/-- Witness for `fifo_tie_break`: buy-side insertion at an equal price lands
behind the earlier order. -/
theorem fifo_tie_break_witness :
    OrderList.add_order ⟨Side.Buy, "STOCK1", 5, 100, 2⟩
        [⟨Side.Buy, "STOCK1", 5, 100, 1⟩] =
      [⟨Side.Buy, "STOCK1", 5, 100, 1⟩].takeWhile
          (fun x => (⟨Side.Buy, "STOCK1", 5, 100, 2⟩ : Order).price ≤ x.price) ++
        ⟨Side.Buy, "STOCK1", 5, 100, 2⟩ ::
          [⟨Side.Buy, "STOCK1", 5, 100, 1⟩].dropWhile
            (fun x => (⟨Side.Buy, "STOCK1", 5, 100, 2⟩ : Order).price ≤ x.price) :=
  fifo_tie_break.1 ⟨Side.Buy, "STOCK1", 5, 100, 2⟩
    [⟨Side.Buy, "STOCK1", 5, 100, 1⟩] rfl

/-- **C8** counterexample: the first call on a fresh engine assigns id 1
(the counter moves from 0 to 1), yet the value returned to the caller is
`None`, not the integer 1. -/
theorem add_order_returns_cx :
    (TradingEngine.init.add_order Side.Buy 1 5 100).map
        (fun r => (r.ret, r.engine.order_id_counter)) = some (none, 1) ∧
    (none : Option Int) ≠ some 1 := by
  decide

/-- **C8** amended: every successful `TradingEngine.add_order` call obtains
a fresh id from the sequence counter (the stored counter becomes its old
value plus one, and that value is the created order's id), but the call
returns `None` rather than the assigned id. -/
theorem add_order_returns_none (e : TradingEngine) (ot : Side) (ti q p : Int)
    (r : AddOrderResult) (h : e.add_order ot ti q p = some r) :
    r.ret = none ∧ r.engine.order_id_counter = e.order_id_counter + 1 := by
  rw [TradingEngine.add_order] at h
  split at h
  · exact absurd h (by simp)
  · split at h
    · exact absurd h (by simp)
    · obtain rfl := (Option.some.inj h).symm
      exact ⟨rfl, rfl⟩

/-- Witness for `add_order_returns_none` on a one-book engine whose counter
stands at 5. -/
theorem add_order_returns_none_witness :
    (⟨⟨[⟨[⟨Side.Buy, "STOCK1", 5, 100, 6⟩], []⟩], 6⟩, [], none⟩ :
        AddOrderResult).ret = none ∧
    (⟨⟨[⟨[⟨Side.Buy, "STOCK1", 5, 100, 6⟩], []⟩], 6⟩, [], none⟩ :
        AddOrderResult).engine.order_id_counter =
      (⟨[⟨[], []⟩], 5⟩ : TradingEngine).order_id_counter + 1 :=
  add_order_returns_none ⟨[⟨[], []⟩], 5⟩ Side.Buy 1 5 100
    ⟨⟨[⟨[⟨Side.Buy, "STOCK1", 5, 100, 6⟩], []⟩], 6⟩, [], none⟩ (by decide)

/-- **C9** (termination): on a book with positive resting quantities, every
iteration of the matching loop either fails the guard (terminates) or fully
fills and removes at least one order, strictly shrinking the book while
keeping quantities positive; hence `match_orders` reaches a state where the
guard fails, with the fuel `lenSum` sufficing. -/
theorem matching_loop_terminates :
    (∀ b : OrderBook, b.ok →
      OrderBook.matchStep b = none ∨
      ∃ t b', OrderBook.matchStep b = some (t, b') ∧
        OrderBook.lenSum b' < OrderBook.lenSum b ∧ b'.ok) ∧
    (∀ b : OrderBook, b.ok →
      OrderBook.matchStep (OrderBook.match_orders b).1 = none) := by
  constructor
  · intro b hb
    cases hstep : OrderBook.matchStep b with
    | none => exact Or.inl rfl
    | some tb =>
      obtain ⟨t, b'⟩ := tb
      exact Or.inr ⟨t, b', rfl, OrderBook.matchStep_lenSum hstep hb,
        OrderBook.matchStep_ok hstep hb⟩
  · intro b hb
    rw [OrderBook.match_orders]
    exact (OrderBook.matchLoop_fix hb le_rfl).1

/-- Witness for `matching_loop_terminates` on a concrete crossed book. -/
theorem matching_loop_terminates_witness :
    OrderBook.matchStep (OrderBook.match_orders
      ⟨[⟨Side.Buy, "STOCK1", 10, 100, 1⟩],
        [⟨Side.Sell, "STOCK1", 4, 90, 2⟩]⟩).1 = none :=
  matching_loop_terminates.2
    ⟨[⟨Side.Buy, "STOCK1", 10, 100, 1⟩], [⟨Side.Sell, "STOCK1", 4, 90, 2⟩]⟩
    (by decide)

/-- **C10** (implicit edge case): on the freshly constructed engine (1,024
books), `add_order` with `ticker_index = 0` raises no error: Python's
negative indexing sends `order_books[-1]` to the last book, so the order
lands in the book at index 1023 while book 0 stays empty. -/
theorem ticker_zero_wraps_to_last_book :
    TradingEngine.init.order_books.length = 1024 ∧
    (TradingEngine.init.add_order Side.Buy 0 5 100).map
        (fun r => (r.engine.order_books.get? 1023, r.engine.order_books.get? 0)) =
      some (some ⟨[⟨Side.Buy, "STOCK0", 5, 100, 1⟩], []⟩, some ⟨[], []⟩) := by
  decide
